import Mathlib

/-!
Shallow embedding of `tox_docker/tox3/plugin.py` (the tox-docker tox-3 plugin).

The plugin keeps two process-wide registries:
  * `CONTAINER_CONFIGS : Dict[str, ContainerConfig]` — filled by `tox_configure`;
  * `ENV_CONTAINERS : EnvRunningContainers` — map from test environment to its
    running containers, filled by `tox_runtest_pre` and read by
    `tox_runtest_post`.

Python dicts preserve insertion order, so both registries and the per-venv
container map are embedded as association lists where assignment to an
existing key replaces in place and assignment to a fresh key appends.

The engine-side collaborators (`docker_pull`, `docker_run`,
`docker_health_check`, `get_env_vars`, `stop_containers`) live in
`tox_docker/plugin.py`, which is outside the source tree; they are treated as
an external oracle (`Engine`), respectively modelled from the spec where a
claim depends on their behaviour.  The hooks are embedded as pure functions
from the global state (plus the oracle) to a result record that carries the
final state, the final `setenv` map, the raised error (if any) and the trace
of engine calls that were issued.
-/

namespace ToxDocker

/-- A running container handle: opaque engine identifier
(spec: "opaque engine identifier, assigned host-mapped ports, network
address"; only the identity matters for the claims). -/
structure Container where
  id : Nat
deriving DecidableEq, Repr

/-- `ContainerConfig`: one parsed `[docker:name]` section.  `links` are the
declared dependency names; `stop` is `false` exactly when the container's
name was given via `--docker-dont-stop` (the command-line exclusion set),
as recorded by `parse_container_config`. -/
structure ContainerConfig where
  name : String
  image : String
  links : List String
  stop : Bool
deriving DecidableEq, Repr

/-- Association-list lookup (first match), embedding Python dict lookup. -/
def alookup {κ α : Type} [DecidableEq κ] : List (κ × α) → κ → Option α
  | [], _ => none
  | (k, v) :: rest, key => if k = key then some v else alookup rest key

/-- Python dict assignment `m[k] = v`: replace in place when the key exists
(keeping its position), append otherwise. -/
def dictSet {κ α : Type} [DecidableEq κ] (m : List (κ × α)) (k : κ) (v : α) :
    List (κ × α) :=
  if k ∈ m.map Prod.fst then
    m.map (fun p => if p.1 = k then (k, v) else p)
  else m ++ [(k, v)]

/-- The per-environment running-container map (`Dict[str, Container]`). -/
abbrev Containers := List (String × Container)

/-- `EnvRunningContainers`: venv identity → its running-container map. -/
abbrev EnvContainers := List (Nat × Containers)

/-- A test environment handle: identity, its `docker =` declared name list,
and its mutable `setenv` variable map. -/
structure VEnv where
  id : Nat
  docker : List String
  setenv : List (String × String)
deriving DecidableEq, Repr

/-- Oracle for the external container-engine collaborators (defined in
`tox_docker/plugin.py`, outside the source tree).  `docker_pull` reports
whether the pull succeeded; `docker_run` receives the current
running-container map (used to resolve declared links) and returns the
started container, or `none` on failure; `docker_health_check` reports
whether the bounded health probe ultimately succeeded; `get_env_vars` is the
pure variable-naming function of the spec. -/
structure Engine where
  docker_pull : ContainerConfig → Bool
  docker_run : ContainerConfig → Containers → Option Container
  docker_health_check : ContainerConfig → Container → Bool
  get_env_vars : ContainerConfig → Container → List (String × String)

/-- Exceptions `tox_runtest_pre` can raise: the two `ValueError`s of the
validation loop, engine failures, and Python `KeyError` on a registry
lookup. -/
inductive PreError
  | missingConfig (name : String)
  | duplicate (name : String)
  | pullFailed (name : String)
  | runFailed (name : String)
  | keyError (name : String)
deriving DecidableEq, Repr

/-- The configuration `ValueError`s (raised by the validation loop before
any engine call). -/
def PreError.isConfig : PreError → Bool
  | .missingConfig _ => true
  | .duplicate _ => true
  | _ => false

/-- One engine call issued by the orchestration, in order.  A `run` event
records the names registered in the environment's container map at the
moment the `docker_run` call was issued. -/
inductive Event
  | pull (name : String)
  | run (name : String) (registered : List String)
  | health (name : String)
deriving DecidableEq, Repr

def Event.isRun : Event → Bool
  | .run _ _ => true
  | _ => false

def Event.isPull : Event → Bool
  | .pull _ => true
  | _ => false

/-- Result of `tox_runtest_pre`: raised exception (if any), the final
`ENV_CONTAINERS` registry, the venv's final `setenv` map, and the trace of
engine calls issued.  Globals and the venv's `setenv` are mutated in place
by the Python code, so they keep their value at the point of a raise. -/
structure PreResult where
  error : Option PreError
  envContainers : EnvContainers
  setenv : List (String × String)
  trace : List Event
deriving DecidableEq, Repr

/-- The validation loop of `tox_runtest_pre` (lines 63–70): walk the venv's
declared `docker` names, raising `Missing [docker:name]` when a name has no
registered config and `specified more than once` on a repeat, and collect
the configs in declared order. -/
def resolveLoop (cfgs : List (String × ContainerConfig)) :
    List String → List String → Except PreError (List ContainerConfig)
  | [], _ => .ok []
  | n :: rest, seen =>
    match alookup cfgs n with
    | none => .error (.missingConfig n)
    | some c =>
      if n ∈ seen then .error (.duplicate n)
      else (resolveLoop cfgs rest (n :: seen)).map (fun l => c :: l)

/-- The pull loop: `docker_pull` each resolved config in order; a failed
pull raises, ending the hook. -/
def pullLoop (eng : Engine) :
    List ContainerConfig → List Event → List Event × Option PreError
  | [], tr => (tr, none)
  | c :: rest, tr =>
    if eng.docker_pull c then pullLoop eng rest (tr ++ [Event.pull c.name])
    else (tr ++ [Event.pull c.name], some (.pullFailed c.name))

/-- The start loop: `docker_run` each config in order against the current
container map (`containers`), registering each started container under
`container_config.name` immediately; a failed run raises with the
containers started so far still registered. -/
def runLoop (eng : Engine) :
    List ContainerConfig → Containers → List Event →
      Containers × List Event × Option PreError
  | [], cs, tr => (cs, tr, none)
  | c :: rest, cs, tr =>
    match eng.docker_run c cs with
    | none => (cs, tr ++ [Event.run c.name (cs.map Prod.fst)],
               some (.runFailed c.name))
    | some cont =>
        runLoop eng rest (dictSet cs c.name cont)
          (tr ++ [Event.run c.name (cs.map Prod.fst)])

/-- The health-check loop (lines 82–88): check each registered container in
insertion order; `HealthCheckFailed` is caught and answered with `break`,
so the first failing check ends the loop without raising.  The config
lookup `CONTAINER_CONFIGS[container_name]` raises `KeyError` when the name
is unregistered. -/
def healthLoop (eng : Engine) (cfgs : List (String × ContainerConfig)) :
    Containers → List Event → List Event × Option PreError
  | [], tr => (tr, none)
  | (n, cont) :: rest, tr =>
    match alookup cfgs n with
    | none => (tr, some (.keyError n))
    | some c =>
      if eng.docker_health_check c cont then
        healthLoop eng cfgs rest (tr ++ [Event.health n])
      else (tr ++ [Event.health n], none)

/-- Whether the health-check loop body passes for one registered container:
its name has a registered config and the engine's bounded probe succeeds. -/
def checkPasses (eng : Engine) (cfgs : List (String × ContainerConfig))
    (p : String × Container) : Bool :=
  match alookup cfgs p.1 with
  | some c => eng.docker_health_check c p.2
  | none => false

/-- The run events the start loop issues when every start succeeds: one
`docker_run` call per config in declared order, with exactly the previously
started names registered at call time. -/
def expectedRuns : List ContainerConfig → List String → List Event
  | [], _ => []
  | c :: rest, started =>
      Event.run c.name started :: expectedRuns rest (started ++ [c.name])

/-- The inner injection loop: set each exported variable on `setenv` only
when it is not already present (`if var not in venv.envconfig.setenv`). -/
def injectVars (vars : List (String × String))
    (se : List (String × String)) : List (String × String) :=
  vars.foldl
    (fun acc p => if p.1 ∈ acc.map Prod.fst then acc
                  else acc ++ [p]) se

/-- The injection loop (lines 90–97): for every registered container, look
up its config (`KeyError` when missing) and merge `get_env_vars` into the
venv's `setenv` without overwriting existing variables. -/
def injectLoop (eng : Engine) (cfgs : List (String × ContainerConfig)) :
    Containers → List (String × String) →
      List (String × String) × Option PreError
  | [], se => (se, none)
  | (n, cont) :: rest, se =>
    match alookup cfgs n with
    | none => (se, some (.keyError n))
    | some c => injectLoop eng cfgs rest (injectVars (eng.get_env_vars c cont) se)

/-- `tox_runtest_pre`: validate the venv's declared names, pull every
resolved image, `ENV_CONTAINERS.setdefault(venv, {})` and start every
container (mutating the venv's map in place — embedded by writing the
accumulated map back under the venv key, which yields the same registry),
then health-check with fail-fast `break`, then inject environment
variables for every registered container. -/
def tox_runtest_pre (eng : Engine) (cfgs : List (String × ContainerConfig))
    (envC : EnvContainers) (venv : VEnv) : PreResult :=
  match resolveLoop cfgs venv.docker [] with
  | .error e => ⟨some e, envC, venv.setenv, []⟩
  | .ok ecc =>
    match pullLoop eng ecc [] with
    | (tr, some e) => ⟨some e, envC, venv.setenv, tr⟩
    | (tr, none) =>
      match runLoop eng ecc ((alookup envC venv.id).getD []) tr with
      | (cs, tr2, some e) => ⟨some e, dictSet envC venv.id cs, venv.setenv, tr2⟩
      | (cs, tr2, none) =>
        match healthLoop eng cfgs cs tr2 with
        | (tr3, some e) => ⟨some e, dictSet envC venv.id cs, venv.setenv, tr3⟩
        | (tr3, none) =>
          match injectLoop eng cfgs cs venv.setenv with
          | (se, oe) => ⟨oe, dictSet envC venv.id cs, se, tr3⟩

/-- `tox_configure` (lines 36–50): validate every `--docker-dont-stop` name
against the discovered container-config names — the first unknown name
raises `ValueError` naming it — then parse and register every discovered
config.  `parse` stands for the external `parse_container_config`. -/
def tox_configure (parse : String → ContainerConfig)
    (container_config_names : List String)
    (docker_dont_stop : List String) :
    Except String (List (String × ContainerConfig)) :=
  match docker_dont_stop.find? (fun n => decide (n ∉ container_config_names)) with
  | some x => .error x
  | none => .ok (container_config_names.map (fun n => (n, parse n)))

/-- Exceptions `tox_runtest_post` can raise: `AttributeError` from calling
`.items()` on the list default of `ENV_CONTAINERS.get(venv, [])`, and
`KeyError` from `CONTAINER_CONFIGS[name]`. -/
inductive PostError
  | attributeError
  | keyError (name : String)
deriving DecidableEq, Repr

/-- Result of `tox_runtest_post`: raised exception (if any), the (never
mutated) `ENV_CONTAINERS` registry, and the names of the containers the
engine was asked to stop. -/
structure PostResult where
  error : Option PostError
  envContainers : EnvContainers
  stopped : List String
deriving DecidableEq, Repr

/-- The list comprehension of `tox_runtest_post`: pair each registered
container with `CONTAINER_CONFIGS[name]`, raising `KeyError` at the first
unregistered name. -/
def buildPairs (cfgs : List (String × ContainerConfig)) :
    Containers → Except PostError (List (ContainerConfig × Container))
  | [] => .ok []
  | (n, c) :: rest =>
    match alookup cfgs n with
    | none => .error (.keyError n)
    | some cfg => (buildPairs cfgs rest).map (fun l => (cfg, c) :: l)

/-- Modelled from the spec: `stop_containers` (defined in
`tox_docker/plugin.py`, outside the source tree) stops every running
container whose config's `stop` flag is set — i.e. whose name is outside
the `--docker-dont-stop` exclusion set — logging per-container failures
without aborting the remaining stops, and does not touch the
running-container registry (it only receives the freshly built pair list).
Embedded as the names the engine is asked to stop. -/
def stop_containers (pairs : List (ContainerConfig × Container)) :
    List String :=
  (pairs.filter (fun p => p.1.stop)).map (fun p => p.1.name)

/-- `tox_runtest_post` (lines 101–108): `ENV_CONTAINERS.get(venv, [])` —
note the *list* default, on which the subsequent `.items()` call raises
`AttributeError` — then build the `(config, container)` pairs and hand them
to `stop_containers`.  The registry itself is never mutated. -/
def tox_runtest_post (cfgs : List (String × ContainerConfig))
    (envC : EnvContainers) (venvId : Nat) : PostResult :=
  match alookup envC venvId with
  | none => ⟨some .attributeError, envC, []⟩
  | some env_containers =>
    match buildPairs cfgs env_containers with
    | .error e => ⟨some e, envC, []⟩
    | .ok pairs => ⟨none, envC, stop_containers pairs⟩

/-! ### Concrete fixtures (used by witnesses and counterexamples)

The two-container scenario of the spec (`docker = web, db`), with the link
declarations forming a cycle (`web` links `db` and `db` links `web`), plus a
container named by `--docker-dont-stop` (`keep`, whose `stop` flag is
`false`). -/

def webCfg : ContainerConfig := ⟨"web", "web:1", ["db"], true⟩

def dbCfg : ContainerConfig := ⟨"db", "db:1", ["web"], true⟩

def keepCfg : ContainerConfig := ⟨"keep", "keep:1", [], false⟩

def cfgs0 : List (String × ContainerConfig) :=
  [("web", webCfg), ("db", dbCfg), ("keep", keepCfg)]

/-- An engine for which every operation succeeds; a started container's id
is the size of the map at start time. -/
def engT : Engine :=
  ⟨fun _ => true, fun _ cs => some ⟨cs.length⟩, fun _ _ => true,
   fun c _ => [(c.name ++ "_HOST", "h")]⟩

/-- Like `engT` but the health check of `web` fails. -/
def engHC : Engine :=
  ⟨fun _ => true, fun _ cs => some ⟨cs.length⟩, fun c _ => c.name != "web",
   fun c _ => [(c.name ++ "_HOST", "h")]⟩

/-- Like `engT` but pulling `db` fails. -/
def engPF : Engine :=
  ⟨fun c => c.name != "db", fun _ cs => some ⟨cs.length⟩, fun _ _ => true,
   fun c _ => [(c.name ++ "_HOST", "h")]⟩

/-- The external `parse_container_config`, as an arbitrary fixture. -/
def parseFix : String → ContainerConfig := fun n => ⟨n, n, [], true⟩

/-! ### Basic lemmas about the dict embedding -/

theorem alookup_eq_none_iff {κ α : Type} [DecidableEq κ]
    (m : List (κ × α)) (k : κ) :
    alookup m k = none ↔ k ∉ m.map Prod.fst := by
  induction m with
  | nil => simp [alookup]
  | cons p rest ih =>
    by_cases h : p.1 = k
    · simp [alookup, h]
    · simp [alookup, h, ih, Ne.symm h]

theorem alookup_append_left {κ α : Type} [DecidableEq κ]
    (m m2 : List (κ × α)) (k : κ) (v : α) (h : alookup m k = some v) :
    alookup (m ++ m2) k = some v := by
  induction m with
  | nil => simp [alookup] at h
  | cons p rest ih =>
    by_cases hp : p.1 = k
    · simpa [alookup, hp] using (by simpa [alookup, hp] using h)
    · simp only [alookup, hp, if_false, List.cons_append]
      exact ih (by simpa [alookup, hp] using h)

theorem alookup_append_right {κ α : Type} [DecidableEq κ]
    (m m2 : List (κ × α)) (k : κ) (h : alookup m k = none) :
    alookup (m ++ m2) k = alookup m2 k := by
  induction m with
  | nil => simp
  | cons p rest ih =>
    by_cases hp : p.1 = k
    · simp [alookup, hp] at h
    · simp only [alookup, hp, if_false, List.cons_append]
      exact ih (by simpa [alookup, hp] using h)

theorem alookup_map_replace {κ α : Type} [DecidableEq κ]
    (m : List (κ × α)) (k : κ) (v : α) (h : k ∈ m.map Prod.fst) :
    alookup (m.map (fun p => if p.1 = k then (k, v) else p)) k = some v := by
  induction m with
  | nil => simp at h
  | cons p rest ih =>
    by_cases hp : p.1 = k
    · rw [List.map_cons, if_pos hp]
      simp [alookup]
    · rw [List.map_cons, if_neg hp]
      have hk : k ∈ rest.map Prod.fst := by
        simp only [List.map_cons, List.mem_cons] at h
        rcases h with h1 | h1
        · exact absurd h1.symm hp
        · exact h1
      simp [alookup, hp, ih hk]

theorem alookup_dictSet_self {κ α : Type} [DecidableEq κ]
    (m : List (κ × α)) (k : κ) (v : α) :
    alookup (dictSet m k v) k = some v := by
  unfold dictSet
  by_cases h : k ∈ m.map Prod.fst
  · simpa [h] using alookup_map_replace m k v h
  · rw [if_neg h, alookup_append_right m _ k ((alookup_eq_none_iff m k).mpr h)]
    simp [alookup]

theorem dictSet_fresh {κ α : Type} [DecidableEq κ]
    (m : List (κ × α)) (k : κ) (v : α) (h : k ∉ m.map Prod.fst) :
    dictSet m k v = m ++ [(k, v)] := by
  simp [dictSet, h]

/-! ### The validation loop (per-environment container set resolver) -/

theorem resolveLoop_ok (cfgs : List (String × ContainerConfig)) :
    ∀ (names seen : List String),
      (∀ n ∈ names, (alookup cfgs n).isSome) → names.Nodup →
      (∀ n ∈ names, n ∉ seen) →
      resolveLoop cfgs names seen = .ok (names.filterMap (alookup cfgs)) := by
  intro names
  induction names with
  | nil => intro seen _ _ _; rfl
  | cons n rest ih =>
    intro seen h1 h2 h3
    obtain ⟨c, hc⟩ := Option.isSome_iff_exists.mp (h1 n (by simp))
    have hns : n ∉ seen := h3 n (by simp)
    have hrec := ih (n :: seen) (fun m hm => h1 m (by simp [hm]))
      (List.Nodup.of_cons h2)
      (fun m hm => by
        have hmn : m ≠ n := fun he => (List.nodup_cons.mp h2).1 (he ▸ hm)
        simpa [hmn] using h3 m (by simp [hm]))
    simp [resolveLoop, hc, hns, hrec, List.filterMap_cons, Except.map]

theorem resolveLoop_error (cfgs : List (String × ContainerConfig)) :
    ∀ (names seen : List String),
      ((∃ n ∈ names, alookup cfgs n = none) ∨ ¬names.Nodup ∨
        ∃ n ∈ names, n ∈ seen) →
      ∃ e, resolveLoop cfgs names seen = .error e ∧ e.isConfig = true := by
  intro names
  induction names with
  | nil =>
    intro seen h
    rcases h with ⟨n, hn, _⟩ | hnd | ⟨n, hn, _⟩
    · simp at hn
    · exact absurd List.nodup_nil hnd
    · simp at hn
  | cons n rest ih =>
    intro seen h
    rcases hc : alookup cfgs n with _ | c
    · exact ⟨.missingConfig n, by simp [resolveLoop, hc], rfl⟩
    by_cases hseen : n ∈ seen
    · exact ⟨.duplicate n, by simp [resolveLoop, hc, hseen], rfl⟩
    have hrest : (∃ m ∈ rest, alookup cfgs m = none) ∨ ¬rest.Nodup ∨
        ∃ m ∈ rest, m ∈ n :: seen := by
      rcases h with ⟨m, hm, hnone⟩ | hnd | ⟨m, hm, hms⟩
      · rcases List.mem_cons.mp hm with rfl | hm2
        · rw [hc] at hnone; cases hnone
        · exact Or.inl ⟨m, hm2, hnone⟩
      · by_cases hnr : n ∈ rest
        · exact Or.inr (Or.inr ⟨n, hnr, by simp⟩)
        · refine Or.inr (Or.inl ?_)
          intro hnd2
          exact hnd (List.nodup_cons.mpr ⟨hnr, hnd2⟩)
      · rcases List.mem_cons.mp hm with rfl | hm2
        · exact absurd hms hseen
        · exact Or.inr (Or.inr ⟨m, hm2, by simp [hms]⟩)
    obtain ⟨e, he, hcfg⟩ := ih (n :: seen) hrest
    exact ⟨e, by simp [resolveLoop, hc, hseen, he, Except.map], hcfg⟩

/-- C7: resolving a test environment's container set fails (and with a
configuration `ValueError`) iff the declared list references a name with no
registered config or repeats a name; otherwise it succeeds and yields the
registered specs in declared order. -/
theorem resolve_fails_iff_bad_reference (cfgs : List (String × ContainerConfig))
    (names : List String) :
    ((∃ e, resolveLoop cfgs names [] = .error e) ↔
      (∃ n ∈ names, alookup cfgs n = none) ∨ ¬names.Nodup) ∧
    ((∀ n ∈ names, (alookup cfgs n).isSome) → names.Nodup →
      resolveLoop cfgs names [] = .ok (names.filterMap (alookup cfgs))) := by
  refine ⟨⟨?_, ?_⟩, fun h1 h2 => resolveLoop_ok cfgs names [] h1 h2 (by simp)⟩
  · rintro ⟨e, he⟩
    by_contra hcon
    push_neg at hcon
    obtain ⟨h1, h2⟩ := hcon
    rw [resolveLoop_ok cfgs names []
      (fun n hn => Option.isSome_iff_ne_none.mpr (h1 n hn)) h2 (by simp)] at he
    cases he
  · intro h
    obtain ⟨e, he, _⟩ := resolveLoop_error cfgs names [] (Or.imp id Or.inl h)
    exact ⟨e, he⟩

theorem resolve_fails_iff_bad_reference_witness :
    (∃ e, resolveLoop cfgs0 ["ghost"] [] = .error e) ∧
    resolveLoop cfgs0 ["web", "db"] [] = .ok [webCfg, dbCfg] := by
  constructor
  · exact (resolve_fails_iff_bad_reference cfgs0 ["ghost"]).1.mpr
      (Or.inl ⟨"ghost", by simp, by decide⟩)
  · have h := (resolve_fails_iff_bad_reference cfgs0 ["web", "db"]).2
      (by decide) (by decide)
    rw [h]; rfl

/-- C5: when a test environment's declared list references an unregistered
name or repeats a name, `tox_runtest_pre` raises the configuration
`ValueError` with an empty engine-call trace, the running-container registry
unchanged and the venv's `setenv` unchanged: no container is pulled,
started, health-checked or registered. -/
theorem config_error_before_any_engine_call (eng : Engine)
    (cfgs : List (String × ContainerConfig)) (envC : EnvContainers)
    (venv : VEnv)
    (h : (∃ n ∈ venv.docker, alookup cfgs n = none) ∨ ¬venv.docker.Nodup) :
    ∃ e, tox_runtest_pre eng cfgs envC venv = ⟨some e, envC, venv.setenv, []⟩ ∧
      e.isConfig = true := by
  obtain ⟨e, he, hc⟩ := resolveLoop_error cfgs venv.docker [] (Or.imp id Or.inl h)
  exact ⟨e, by simp [tox_runtest_pre, he], hc⟩

theorem config_error_before_any_engine_call_witness :
    ∃ e, tox_runtest_pre engT cfgs0 [] ⟨0, ["ghost"], []⟩ =
      ⟨some e, [], [], []⟩ ∧ e.isConfig = true :=
  config_error_before_any_engine_call engT cfgs0 [] ⟨0, ["ghost"], []⟩
    (Or.inl ⟨"ghost", by simp, by decide⟩)

/-- C8: `tox_configure` raises `ValueError` iff some `--docker-dont-stop`
name is not among the discovered container-config names; the raised error
names an unknown entry; when every entry is known, configuration proceeds
and registers every discovered config. -/
theorem dont_stop_validation (parse : String → ContainerConfig)
    (names ds : List String) :
    ((∃ x, tox_configure parse names ds = .error x) ↔ ∃ x ∈ ds, x ∉ names) ∧
    (∀ x, tox_configure parse names ds = .error x → x ∈ ds ∧ x ∉ names) ∧
    ((∀ x ∈ ds, x ∈ names) →
      tox_configure parse names ds = .ok (names.map (fun n => (n, parse n)))) := by
  unfold tox_configure
  rcases hf : ds.find? (fun n => decide (n ∉ names)) with _ | x
  · rw [List.find?_eq_none] at hf
    refine ⟨⟨?_, ?_⟩, ?_, ?_⟩
    · rintro ⟨x, hx⟩; cases hx
    · rintro ⟨x, hxds, hxn⟩
      exact absurd (decide_eq_true hxn) (hf x hxds)
    · intro x hx; cases hx
    · intro _; rfl
  · have hxds : x ∈ ds := List.mem_of_find?_eq_some hf
    have hpx : (fun n => decide (n ∉ names)) x = true :=
      @List.find?_some String (fun n => decide (n ∉ names)) x ds hf
    have hxn : x ∉ names := of_decide_eq_true (by simpa using hpx)
    refine ⟨⟨fun _ => ⟨x, hxds, hxn⟩, fun _ => ⟨x, rfl⟩⟩, ?_, ?_⟩
    · intro y hy
      cases hy
      exact ⟨hxds, hxn⟩
    · intro hall
      exact absurd (hall x hxds) hxn

theorem dont_stop_validation_witness :
    (∃ x, tox_configure parseFix ["web", "db"] ["ghost"] = .error x) ∧
    tox_configure parseFix ["web"] [] = .ok [("web", parseFix "web")] :=
  ⟨(dont_stop_validation parseFix ["web", "db"] ["ghost"]).1.mpr
      ⟨"ghost", by simp, by decide⟩,
   (dont_stop_validation parseFix ["web"] []).2.2 (by simp)⟩

/-- C10: invoking `tox_runtest_post` for a venv with no entry in
`ENV_CONTAINERS` raises `AttributeError` (the `.get` default is the list
`[]`, which has no `.items()`), instead of completing without exception;
no container is stopped. -/
theorem post_without_entry_raises_attribute_error :
    tox_runtest_post cfgs0 [] 0 =
      ⟨some PostError.attributeError, [], []⟩ := rfl

/-! ### Environment-variable injection -/

theorem alookup_injectVars (vars : List (String × String)) :
    ∀ (se : List (String × String)) (v x : String),
      alookup se v = some x → alookup (injectVars vars se) v = some x := by
  induction vars with
  | nil => intro se v x h; exact h
  | cons p rest ih =>
    intro se v x h
    rw [injectVars, List.foldl_cons]
    by_cases hp : p.1 ∈ se.map Prod.fst
    · rw [if_pos hp]
      exact ih se v x h
    · rw [if_neg hp]
      exact ih (se ++ [p]) v x (alookup_append_left se [p] v x h)

theorem injectLoop_preserves (eng : Engine)
    (cfgs : List (String × ContainerConfig)) :
    ∀ (cs : Containers) (se : List (String × String)) (v x : String),
      alookup se v = some x →
      alookup (injectLoop eng cfgs cs se).1 v = some x := by
  intro cs
  induction cs with
  | nil => intro se v x h; exact h
  | cons p rest ih =>
    intro se v x h
    rcases hc : alookup cfgs p.1 with _ | c
    · simpa [injectLoop, hc] using h
    · simpa [injectLoop, hc] using
        ih (injectVars (eng.get_env_vars c p.2) se) v x
          (alookup_injectVars _ se v x h)

/-- C6: a variable already present in the venv's `setenv` before
`tox_runtest_pre` keeps its value: injected variables never overwrite
pre-existing ones (first-writer-wins). -/
theorem inject_never_overwrites (eng : Engine)
    (cfgs : List (String × ContainerConfig)) (envC : EnvContainers)
    (venv : VEnv) (v x : String) (h : alookup venv.setenv v = some x) :
    alookup (tox_runtest_pre eng cfgs envC venv).setenv v = some x := by
  rcases hr : resolveLoop cfgs venv.docker [] with e | ecc
  · simpa [tox_runtest_pre, hr] using h
  rcases hp : pullLoop eng ecc [] with ⟨tr, _ | e⟩
  case mk.some => simpa [tox_runtest_pre, hr, hp] using h
  rcases hrun : runLoop eng ecc ((alookup envC venv.id).getD []) tr with
    ⟨cs, tr2, _ | e⟩
  case mk.mk.some => simpa [tox_runtest_pre, hr, hp, hrun] using h
  rcases hh : healthLoop eng cfgs cs tr2 with ⟨tr3, _ | e⟩
  case mk.some => simpa [tox_runtest_pre, hr, hp, hrun, hh] using h
  rcases hi : injectLoop eng cfgs cs venv.setenv with ⟨se, oe⟩
  have hpres := injectLoop_preserves eng cfgs cs venv.setenv v x h
  rw [hi] at hpres
  simpa [tox_runtest_pre, hr, hp, hrun, hh, hi] using hpres

theorem inject_never_overwrites_witness :
    alookup (tox_runtest_pre engT cfgs0 []
      ⟨0, ["web", "db"], [("web_HOST", "mine")]⟩).setenv "web_HOST" =
      some "mine" :=
  inject_never_overwrites engT cfgs0 []
    ⟨0, ["web", "db"], [("web_HOST", "mine")]⟩ "web_HOST" "mine" (by decide)

/-! ### Pull, start and health-check loops -/

theorem pullLoop_ok (eng : Engine) :
    ∀ (l : List ContainerConfig) (tr : List Event),
      (∀ c ∈ l, eng.docker_pull c = true) →
      pullLoop eng l tr = (tr ++ l.map (fun c => Event.pull c.name), none) := by
  intro l
  induction l with
  | nil => intro tr _; simp [pullLoop]
  | cons c rest ih =>
    intro tr h
    rw [pullLoop, if_pos (h c (by simp)), ih _ (fun d hd => h d (by simp [hd]))]
    simp

theorem pullLoop_fail (eng : Engine) (good : List ContainerConfig)
    (bad : ContainerConfig) (rest : List ContainerConfig) :
    ∀ (tr : List Event),
      (∀ c ∈ good, eng.docker_pull c = true) → eng.docker_pull bad = false →
      pullLoop eng (good ++ bad :: rest) tr =
        (tr ++ (good ++ [bad]).map (fun c => Event.pull c.name),
         some (.pullFailed bad.name)) := by
  induction good with
  | nil => intro tr _ hb; simp [pullLoop, hb]
  | cons c cgood ih =>
    intro tr h hb
    rw [List.cons_append, pullLoop, if_pos (h c (by simp)),
      ih _ (fun d hd => h d (by simp [hd])) hb]
    simp

theorem pullLoop_filter_isRun (eng : Engine) :
    ∀ (l : List ContainerConfig) (tr : List Event),
      (pullLoop eng l tr).1.filter Event.isRun = tr.filter Event.isRun := by
  intro l
  induction l with
  | nil => intro tr; rfl
  | cons c rest ih =>
    intro tr
    rw [pullLoop]
    by_cases hc : eng.docker_pull c = true
    · rw [if_pos hc, ih]
      simp [Event.isRun]
    · rw [if_neg hc]
      simp [Event.isRun]

theorem runLoop_ok_trace (eng : Engine) :
    ∀ (l : List ContainerConfig) (cs0 : Containers) (tr : List Event)
      (cs : Containers) (tr2 : List Event),
      runLoop eng l cs0 tr = (cs, tr2, none) →
      (∀ c ∈ l, c.name ∉ cs0.map Prod.fst) →
      (l.map ContainerConfig.name).Nodup →
      tr2 = tr ++ expectedRuns l (cs0.map Prod.fst) ∧
      cs.map Prod.fst = cs0.map Prod.fst ++ l.map ContainerConfig.name := by
  intro l
  induction l with
  | nil =>
    intro cs0 tr cs tr2 h _ _
    rw [runLoop] at h
    cases h
    simp [expectedRuns]
  | cons c rest ih =>
    intro cs0 tr cs tr2 h hfresh hnd
    rw [runLoop] at h
    rcases hrun : eng.docker_run c cs0 with _ | cont
    · rw [hrun] at h; cases h
    rw [hrun] at h
    simp only at h
    have hfr : c.name ∉ cs0.map Prod.fst := hfresh c (by simp)
    rw [dictSet_fresh cs0 c.name cont hfr] at h
    have hkeys : (cs0 ++ [(c.name, cont)]).map Prod.fst =
        cs0.map Prod.fst ++ [c.name] := by simp
    have hfresh2 : ∀ d ∈ rest, d.name ∉ (cs0 ++ [(c.name, cont)]).map Prod.fst := by
      intro d hd
      rw [hkeys]
      simp only [List.mem_append, List.mem_singleton]
      rintro (hin | heq)
      · exact hfresh d (by simp [hd]) hin
      · exact (List.nodup_cons.mp (by simpa using hnd)).1
          (List.mem_map.mpr ⟨d, hd, heq⟩)
    have hrec := ih (cs0 ++ [(c.name, cont)]) (tr ++ [Event.run c.name (cs0.map Prod.fst)])
      cs tr2 h hfresh2 (List.Nodup.of_cons (by simpa using hnd))
    rw [hkeys] at hrec
    obtain ⟨htr, hcs⟩ := hrec
    constructor
    · rw [htr, expectedRuns]
      simp
    · rw [hcs]
      simp

theorem healthLoop_break (eng : Engine)
    (cfgs : List (String × ContainerConfig)) :
    ∀ (csOk : Containers) (bad : String × Container) (csRest : Containers)
      (tr : List Event),
      (∀ p ∈ csOk, checkPasses eng cfgs p = true) →
      checkPasses eng cfgs bad = false → (alookup cfgs bad.1).isSome →
      healthLoop eng cfgs (csOk ++ bad :: csRest) tr =
        (tr ++ (csOk ++ [bad]).map (fun p => Event.health p.1), none) := by
  intro csOk
  induction csOk with
  | nil =>
    intro bad csRest tr _ hbad hsome
    obtain ⟨n, cont⟩ := bad
    obtain ⟨c, hc⟩ := Option.isSome_iff_exists.mp hsome
    simp only [checkPasses, hc] at hbad
    simp [healthLoop, hc, hbad]
  | cons p ps ih =>
    intro bad csRest tr hok hbad hsome
    obtain ⟨n, cont⟩ := p
    have hp := hok (n, cont) (by simp)
    rcases hc : alookup cfgs n with _ | c
    · simp [checkPasses, hc] at hp
    simp only [checkPasses, hc] at hp
    have hstep : healthLoop eng cfgs ((n, cont) :: (ps ++ bad :: csRest)) tr =
        healthLoop eng cfgs (ps ++ bad :: csRest) (tr ++ [Event.health n]) := by
      simp [healthLoop, hc, hp]
    rw [List.cons_append, hstep,
      ih bad csRest _ (fun q hq => hok q (by simp [hq])) hbad hsome]
    simp

theorem healthLoop_no_keyError (eng : Engine)
    (cfgs : List (String × ContainerConfig)) :
    ∀ (cs : Containers) (tr : List Event),
      (∀ p ∈ cs, (alookup cfgs p.1).isSome) →
      (healthLoop eng cfgs cs tr).2 = none := by
  intro cs
  induction cs with
  | nil => intro tr _; rfl
  | cons p rest ih =>
    intro tr h
    obtain ⟨n, cont⟩ := p
    obtain ⟨c, hc⟩ := Option.isSome_iff_exists.mp (h (n, cont) (by simp))
    by_cases hh : eng.docker_health_check c cont = true
    · simp only [healthLoop, hc]
      rw [if_pos hh]
      exact ih _ (fun q hq => h q (by simp [hq]))
    · simp only [healthLoop, hc]
      rw [if_neg hh]

theorem healthLoop_filter_isRun (eng : Engine)
    (cfgs : List (String × ContainerConfig)) :
    ∀ (cs : Containers) (tr : List Event),
      (healthLoop eng cfgs cs tr).1.filter Event.isRun =
        tr.filter Event.isRun := by
  intro cs
  induction cs with
  | nil => intro tr; rfl
  | cons p rest ih =>
    intro tr
    obtain ⟨n, cont⟩ := p
    rcases hc : alookup cfgs n with _ | c
    · simp [healthLoop, hc]
    · by_cases hh : eng.docker_health_check c cont = true
      · simp only [healthLoop, hc]
        rw [if_pos hh, ih]
        simp [Event.isRun]
      · simp only [healthLoop, hc]
        rw [if_neg hh]
        simp [Event.isRun]

/-- C1: with the venv's containers resolved, pulled and started, when the
health check of the `N`th registered container fails, `tox_runtest_pre`
health-checks exactly the containers up to and including that one — none
after it in start order — and every started container remains registered
under the venv in the running-container registry. -/
theorem health_check_fail_fast (eng : Engine)
    (cfgs : List (String × ContainerConfig)) (envC : EnvContainers)
    (venv : VEnv) (ecc : List ContainerConfig) (trP trR : List Event)
    (cs csOk csRest : Containers) (bad : String × Container)
    (h1 : resolveLoop cfgs venv.docker [] = .ok ecc)
    (h2 : pullLoop eng ecc [] = (trP, none))
    (h3 : runLoop eng ecc ((alookup envC venv.id).getD []) trP = (cs, trR, none))
    (h4 : cs = csOk ++ bad :: csRest)
    (h5 : ∀ p ∈ csOk, checkPasses eng cfgs p = true)
    (h6 : checkPasses eng cfgs bad = false)
    (h7 : (alookup cfgs bad.1).isSome) :
    (tox_runtest_pre eng cfgs envC venv).trace =
      trR ++ (csOk ++ [bad]).map (fun p => Event.health p.1) ∧
    alookup (tox_runtest_pre eng cfgs envC venv).envContainers venv.id =
      some cs := by
  have hh := healthLoop_break eng cfgs csOk bad csRest trR h5 h6 h7
  rw [← h4] at hh
  rcases hi : injectLoop eng cfgs cs venv.setenv with ⟨se, oe⟩
  refine ⟨?_, ?_⟩
  · simp [tox_runtest_pre, h1, h2, h3, hh, hi]
  · simp [tox_runtest_pre, h1, h2, h3, hh, hi, alookup_dictSet_self]

theorem health_check_fail_fast_witness :
    (tox_runtest_pre engHC cfgs0 [] ⟨0, ["web", "db"], []⟩).trace =
      [Event.pull "web", Event.pull "db", Event.run "web" [],
       Event.run "db" ["web"], Event.health "web"] ∧
    alookup (tox_runtest_pre engHC cfgs0 []
        ⟨0, ["web", "db"], []⟩).envContainers 0 =
      some [("web", ⟨0⟩), ("db", ⟨1⟩)] := by
  have h := health_check_fail_fast engHC cfgs0 [] ⟨0, ["web", "db"], []⟩
    [webCfg, dbCfg] [Event.pull "web", Event.pull "db"]
    [Event.pull "web", Event.pull "db", Event.run "web" [],
      Event.run "db" ["web"]]
    [("web", ⟨0⟩), ("db", ⟨1⟩)] [] [("db", ⟨1⟩)] ("web", ⟨0⟩)
    rfl rfl rfl rfl (by simp) (by decide) (by decide)
  simpa using h

/-- C9: with the venv's containers resolved, a pull failure ends
`tox_runtest_pre` with only pull calls issued — no `docker_run` call — the
running-container registry unchanged (nothing started or registered for the
venv) and the venv's `setenv` unchanged. -/
theorem pull_failure_aborts_before_start (eng : Engine)
    (cfgs : List (String × ContainerConfig)) (envC : EnvContainers)
    (venv : VEnv) (ecc good rest : List ContainerConfig)
    (bad : ContainerConfig)
    (h1 : resolveLoop cfgs venv.docker [] = .ok ecc)
    (h2 : ecc = good ++ bad :: rest)
    (h3 : ∀ c ∈ good, eng.docker_pull c = true)
    (h4 : eng.docker_pull bad = false) :
    tox_runtest_pre eng cfgs envC venv =
      ⟨some (.pullFailed bad.name), envC, venv.setenv,
        (good ++ [bad]).map (fun c => Event.pull c.name)⟩ ∧
    ∀ ev ∈ (tox_runtest_pre eng cfgs envC venv).trace, ev.isPull = true := by
  have hp := pullLoop_fail eng good bad rest [] h3 h4
  rw [← h2] at hp
  have hmain : tox_runtest_pre eng cfgs envC venv =
      ⟨some (.pullFailed bad.name), envC, venv.setenv,
        (good ++ [bad]).map (fun c => Event.pull c.name)⟩ := by
    simp [tox_runtest_pre, h1, hp]
  refine ⟨hmain, ?_⟩
  rw [hmain]
  intro ev hev
  rcases List.mem_map.mp hev with ⟨c, _, h⟩
  rw [← h]
  rfl

theorem pull_failure_aborts_before_start_witness :
    tox_runtest_pre engPF cfgs0 [] ⟨0, ["web", "db"], [("PRE", "x")]⟩ =
      ⟨some (.pullFailed "db"), [], [("PRE", "x")],
        [Event.pull "web", Event.pull "db"]⟩ ∧
    ∀ ev ∈ (tox_runtest_pre engPF cfgs0 []
        ⟨0, ["web", "db"], [("PRE", "x")]⟩).trace, ev.isPull = true := by
  have h := pull_failure_aborts_before_start engPF cfgs0 []
    ⟨0, ["web", "db"], [("PRE", "x")]⟩ [webCfg, dbCfg] [webCfg] [] dbCfg
    rfl rfl (by decide) (by decide)
  simpa using h

/-! ### Engine-dependence of each phase -/

theorem pullLoop_congr (eng1 eng2 : Engine)
    (h : eng1.docker_pull = eng2.docker_pull) :
    ∀ (l : List ContainerConfig) (tr : List Event),
      pullLoop eng1 l tr = pullLoop eng2 l tr := by
  intro l
  induction l with
  | nil => intro tr; rfl
  | cons c rest ih =>
    intro tr
    rw [pullLoop, pullLoop, h, ih]

theorem runLoop_congr (eng1 eng2 : Engine)
    (h : eng1.docker_run = eng2.docker_run) :
    ∀ (l : List ContainerConfig) (cs : Containers) (tr : List Event),
      runLoop eng1 l cs tr = runLoop eng2 l cs tr := by
  intro l
  induction l with
  | nil => intro cs tr; rfl
  | cons c rest ih =>
    intro cs tr
    rw [runLoop, runLoop, h]
    rcases eng2.docker_run c cs with _ | cont
    · rfl
    · exact ih _ _

theorem injectLoop_congr (eng1 eng2 : Engine)
    (cfgs : List (String × ContainerConfig))
    (h : eng1.get_env_vars = eng2.get_env_vars) :
    ∀ (cs : Containers) (se : List (String × String)),
      injectLoop eng1 cfgs cs se = injectLoop eng2 cfgs cs se := by
  intro cs
  induction cs with
  | nil => intro se; rfl
  | cons p rest ih =>
    intro se
    obtain ⟨n, cont⟩ := p
    rcases hc : alookup cfgs n with _ | c
    · simp [injectLoop, hc]
    · simp only [injectLoop, hc]
      rw [h, ih]

/-- C3 (amended): environment-variable injection is performed for every
registered container of the venv, independently of health-check outcomes:
once resolution, pulls and starts have succeeded (and every registered name
has a config), the final `setenv` is the full injection over all registered
containers, and two engines differing only in their health checks produce
the same `setenv`. -/
theorem inject_ignores_health (eng1 eng2 : Engine)
    (cfgs : List (String × ContainerConfig)) (envC : EnvContainers)
    (venv : VEnv) (ecc : List ContainerConfig) (trP trR : List Event)
    (cs : Containers)
    (hpE : eng1.docker_pull = eng2.docker_pull)
    (hrE : eng1.docker_run = eng2.docker_run)
    (hvE : eng1.get_env_vars = eng2.get_env_vars)
    (h1 : resolveLoop cfgs venv.docker [] = .ok ecc)
    (h2 : pullLoop eng1 ecc [] = (trP, none))
    (h3 : runLoop eng1 ecc ((alookup envC venv.id).getD []) trP = (cs, trR, none))
    (h4 : ∀ p ∈ cs, (alookup cfgs p.1).isSome) :
    (tox_runtest_pre eng1 cfgs envC venv).setenv =
      (injectLoop eng1 cfgs cs venv.setenv).1 ∧
    (tox_runtest_pre eng2 cfgs envC venv).setenv =
      (injectLoop eng1 cfgs cs venv.setenv).1 := by
  have h2b : pullLoop eng2 ecc [] = (trP, none) := by
    rw [← pullLoop_congr eng1 eng2 hpE]; exact h2
  have h3b : runLoop eng2 ecc ((alookup envC venv.id).getD []) trP =
      (cs, trR, none) := by
    rw [← runLoop_congr eng1 eng2 hrE]; exact h3
  have hiC := injectLoop_congr eng1 eng2 cfgs hvE cs venv.setenv
  constructor
  · rcases hh : healthLoop eng1 cfgs cs trR with ⟨tr3, oe⟩
    have hoe : oe = none := by
      have := healthLoop_no_keyError eng1 cfgs cs trR h4
      rw [hh] at this; exact this
    subst hoe
    rcases hi : injectLoop eng1 cfgs cs venv.setenv with ⟨se, o⟩
    simp [tox_runtest_pre, h1, h2, h3, hh, hi]
  · rcases hh : healthLoop eng2 cfgs cs trR with ⟨tr3, oe⟩
    have hoe : oe = none := by
      have := healthLoop_no_keyError eng2 cfgs cs trR h4
      rw [hh] at this; exact this
    subst hoe
    rcases hi : injectLoop eng2 cfgs cs venv.setenv with ⟨se, o⟩
    rw [hiC, hi]
    simp [tox_runtest_pre, h1, h2b, h3b, hh, hi]

theorem inject_ignores_health_witness :
    (tox_runtest_pre engT cfgs0 [] ⟨0, ["web", "db"], []⟩).setenv =
      (injectLoop engT cfgs0 [("web", ⟨0⟩), ("db", ⟨1⟩)] []).1 ∧
    (tox_runtest_pre engHC cfgs0 [] ⟨0, ["web", "db"], []⟩).setenv =
      (injectLoop engT cfgs0 [("web", ⟨0⟩), ("db", ⟨1⟩)] []).1 := by
  have h := inject_ignores_health engT engHC cfgs0 [] ⟨0, ["web", "db"], []⟩
    [webCfg, dbCfg] [Event.pull "web", Event.pull "db"]
    [Event.pull "web", Event.pull "db", Event.run "web" [],
      Event.run "db" ["web"]]
    [("web", ⟨0⟩), ("db", ⟨1⟩)]
    rfl rfl rfl rfl rfl rfl (by decide)
  simpa using h

/-- C3 counterexample: `web`'s health check fails (and `db`'s is therefore
skipped — the trace ends at `health "web"`), yet both containers' exported
variables are injected into the venv's `setenv`, contradicting "a container
whose health check failed, or was skipped, contributes no variables". -/
theorem inject_for_unhealthy_counterexample :
    (tox_runtest_pre engHC cfgs0 [] ⟨0, ["web", "db"], []⟩).setenv =
      [("web_HOST", "h"), ("db_HOST", "h")] ∧
    (tox_runtest_pre engHC cfgs0 [] ⟨0, ["web", "db"], []⟩).trace =
      [Event.pull "web", Event.pull "db", Event.run "web" [],
       Event.run "db" ["web"], Event.health "web"] ∧
    engHC.docker_health_check webCfg ⟨0⟩ = false := by
  refine ⟨rfl, rfl, rfl⟩

theorem expectedRuns_filter_isRun :
    ∀ (l : List ContainerConfig) (s : List String),
      (expectedRuns l s).filter Event.isRun = expectedRuns l s := by
  intro l
  induction l with
  | nil => intro s; rfl
  | cons c rest ih => intro s; simp [expectedRuns, List.filter_cons, Event.isRun, ih]

/-- C4 (amended): containers are started in declared order — at each
`docker_run` call exactly the previously declared containers are registered
in the venv's map, so a declared dependency's container is available at a
dependent's start call only when the dependency precedes the dependent in
the declared list; dependency links do not influence the order and no cycle
detection is performed. -/
theorem starts_in_declared_order (eng : Engine)
    (cfgs : List (String × ContainerConfig)) (envC : EnvContainers)
    (venv : VEnv) (ecc : List ContainerConfig) (trP trR : List Event)
    (cs : Containers)
    (h0 : alookup envC venv.id = none)
    (h1 : resolveLoop cfgs venv.docker [] = .ok ecc)
    (hnd : (ecc.map ContainerConfig.name).Nodup)
    (h2 : pullLoop eng ecc [] = (trP, none))
    (h3 : runLoop eng ecc ((alookup envC venv.id).getD []) trP = (cs, trR, none)) :
    (tox_runtest_pre eng cfgs envC venv).trace.filter Event.isRun =
      expectedRuns ecc [] ∧
    cs.map Prod.fst = ecc.map ContainerConfig.name := by
  rw [h0] at h3
  simp only [Option.getD_none] at h3
  have hrt := runLoop_ok_trace eng ecc [] trP cs trR h3 (by simp) hnd
  obtain ⟨htr, hcs⟩ := hrt
  simp only [List.map_nil] at htr hcs
  have htrP : trP.filter Event.isRun = [] := by
    have := pullLoop_filter_isRun eng ecc []
    rw [h2] at this
    simpa using this
  have htrR : trR.filter Event.isRun = expectedRuns ecc [] := by
    rw [htr, List.filter_append, htrP, expectedRuns_filter_isRun]
    simp
  refine ⟨?_, by simpa using hcs⟩
  rcases hh : healthLoop eng cfgs cs trR with ⟨tr3, oe⟩
  have htr3 : tr3.filter Event.isRun = trR.filter Event.isRun := by
    have := healthLoop_filter_isRun eng cfgs cs trR
    rw [hh] at this
    exact this
  rcases oe with _ | e
  · rcases hi : injectLoop eng cfgs cs venv.setenv with ⟨se, o⟩
    have : (tox_runtest_pre eng cfgs envC venv).trace = tr3 := by
      simp [tox_runtest_pre, h1, h2, h0, h3, hh, hi]
    rw [this, htr3, htrR]
  · have : (tox_runtest_pre eng cfgs envC venv).trace = tr3 := by
      simp [tox_runtest_pre, h1, h2, h0, h3, hh]
    rw [this, htr3, htrR]

theorem starts_in_declared_order_witness :
    (tox_runtest_pre engT cfgs0 []
        ⟨0, ["web", "db"], []⟩).trace.filter Event.isRun =
      expectedRuns [webCfg, dbCfg] [] ∧
    ([("web", (⟨0⟩ : Container)), ("db", ⟨1⟩)].map Prod.fst) =
      [webCfg, dbCfg].map ContainerConfig.name := by
  have h := starts_in_declared_order engT cfgs0 [] ⟨0, ["web", "db"], []⟩
    [webCfg, dbCfg] [Event.pull "web", Event.pull "db"]
    [Event.pull "web", Event.pull "db", Event.run "web" [],
      Event.run "db" ["web"]]
    [("web", ⟨0⟩), ("db", ⟨1⟩)]
    rfl rfl (by decide) rfl rfl
  simpa using h

/-- C4 counterexample: `web` declares a link on `db` (and the links form a
cycle `web ↔ db`), yet with declared order `web, db` the `docker_run` call
for `web` is issued with the registry empty — `db`'s container is not
present — and no configuration error is raised before (or after) the start
calls: the full lifecycle runs. -/
theorem dependency_order_counterexample :
    (tox_runtest_pre engT cfgs0 [] ⟨0, ["web", "db"], []⟩).trace =
      [Event.pull "web", Event.pull "db", Event.run "web" [],
       Event.run "db" ["web"], Event.health "web", Event.health "db"] ∧
    (tox_runtest_pre engT cfgs0 [] ⟨0, ["web", "db"], []⟩).error = none ∧
    "db" ∈ webCfg.links ∧ "web" ∈ dbCfg.links := by
  refine ⟨rfl, rfl, by decide, by decide⟩

/-! ### Teardown -/

theorem buildPairs_ok (cfgs : List (String × ContainerConfig)) :
    ∀ (cs : Containers),
      (∀ p ∈ cs, (alookup cfgs p.1).isSome) →
      buildPairs cfgs cs =
        .ok (cs.filterMap
          (fun p => (alookup cfgs p.1).map (fun c => (c, p.2)))) := by
  intro cs
  induction cs with
  | nil => intro _; rfl
  | cons p rest ih =>
    intro h
    obtain ⟨n, cont⟩ := p
    obtain ⟨c, hc⟩ := Option.isSome_iff_exists.mp (h (n, cont) (by simp))
    simp [buildPairs, hc, ih (fun q hq => h q (by simp [hq])),
      List.filterMap_cons, Except.map]

/-- C2 (amended): when the venv has an entry in the registry and every
registered name has a config, `tox_runtest_post` completes without raising,
hands to the engine's stop exactly the registered containers whose `stop`
flag is set — i.e. whose name is outside the `--docker-dont-stop` exclusion
set — and leaves `ENV_CONTAINERS` unchanged: teardown never removes entries
from the running-container map. -/
theorem teardown_stops_but_keeps_registry
    (cfgs : List (String × ContainerConfig)) (envC : EnvContainers)
    (venvId : Nat) (cs : Containers)
    (h1 : alookup envC venvId = some cs)
    (h2 : ∀ p ∈ cs, (alookup cfgs p.1).isSome) :
    tox_runtest_post cfgs envC venvId =
      ⟨none, envC,
        stop_containers (cs.filterMap
          (fun p => (alookup cfgs p.1).map (fun c => (c, p.2))))⟩ := by
  simp [tox_runtest_post, h1, buildPairs_ok cfgs cs h2]

theorem teardown_stops_but_keeps_registry_witness :
    tox_runtest_post cfgs0 [(0, [("db", ⟨7⟩), ("keep", ⟨8⟩)])] 0 =
      ⟨none, [(0, [("db", ⟨7⟩), ("keep", ⟨8⟩)])],
        stop_containers [(dbCfg, ⟨7⟩), (keepCfg, ⟨8⟩)]⟩ := by
  have h := teardown_stops_but_keeps_registry cfgs0
    [(0, [("db", ⟨7⟩), ("keep", ⟨8⟩)])] 0 [("db", ⟨7⟩), ("keep", ⟨8⟩)]
    rfl (by decide)
  simpa using h

/-- C2 counterexample: after teardown of a venv whose registry holds `db` —
a container outside the exclusion set, which is duly stopped — the venv's
running-container map still contains the `db` entry: entries are not
removed from the map by teardown, contradicting "the running-container map
contains no entry whose container name is outside the exclusion set". -/
theorem teardown_keeps_entries_counterexample :
    tox_runtest_post cfgs0 [(0, [("db", ⟨7⟩)])] 0 =
      ⟨none, [(0, [("db", ⟨7⟩)])], ["db"]⟩ ∧
    dbCfg.stop = true := ⟨rfl, rfl⟩

end ToxDocker
